import Mathlib

/-!
Verification of the mini-C → Python transpiler (src/main.py).

The embedding mirrors the source file:
- `SymbolTable.*` embeds the SymbolTable class (lines 7-21).  The Python
  list `self.scopes` keeps the current scope at index -1; here the HEAD of
  the list is the current (innermost) scope, so Python iterating
  `reversed(self.scopes)` corresponds to iterating the Lean list in order.
  A Python dict is embedded as an association list where `add` conses a new
  binding in front; `List.lookup` then returns the most recent binding,
  which is observationally the dict behaviour for the operations the
  program uses (membership test and read).
- `Sp3.visit`, `Sp3.visitExpr`, ... embed SemanticAnalyzer (lines 24-127).
  The Python class dispatches a single `visit` on the `type` tag of an
  untyped dict; the grammar (lines 162-321) stratifies nodes into
  expressions, statements, functions and programs, so the embedding uses
  the corresponding typed AST and one visit function per stratum, with the
  per-tag cases matching visit_Literal, visit_Identifier, visit_BinaryOp,
  visit_Assignment, visit_Call, visit_VarDecl, visit_Return, visit_Print,
  visit_Block, visit_If, visit_While, visit_FunctionDef, visit_Program.
  The parser produces `None` for the empty statement `;` (line 236-238),
  and `visit` returns immediately on `None` (line 38), so statement
  positions are embedded as `Option Stmt`.
- `Sp3.genExpr` / `Sp3.genStmt` / ... embed `generate` (lines 334-400).
  `generate` faults (a TypeError on `None['type']`) when the consequent,
  alternate or while-body is the null statement, so the statement-level
  generator returns `Option String`, `none` marking that fault.  Note that
  the final branch of the Python if/elif chain,
  `elif ntype == 'Call' and indent > 0` (line 398), is unreachable: the
  earlier `elif ntype == 'Call'` (line 391) already matches every Call
  node, so the embedding has no corresponding case.
-/

namespace Sp3

/-- Param node, from `p_param` (line 202): `{'type':'Param','dataType':..,'name':..}`. -/
structure Param where
  dataType : String
  name : String
deriving DecidableEq, Repr

/-- Expression nodes, from the grammar rules `p_expression_*` (lines 269-317). -/
inductive Expr where
  | literal (value : Int)
  | identifier (name : String)
  | binaryOp (op : String) (left right : Expr)
  | assignment (target : String) (value : Expr)
  | call (callee : String) (args : List Expr)
deriving Repr

/-- Statement nodes, from the grammar rules for statements (lines 214-267).
Statement positions that the parser can fill with `None` (the empty
statement `;`, line 236-238) are `Option Stmt`; the `alternate` of an If is
`none` both when the else branch is absent and when it is a null statement,
matching the truthiness test `if node['alternate']:` (line 104). -/
inductive Stmt where
  | varDecl (dataType name : String) (init : Option Expr)
  | exprStmt (e : Expr)
  | print (value : Expr)
  | ret (value : Option Expr)
  | block (body : List (Option Stmt))
  | ifStmt (test : Expr) (consequent : Option Stmt) (alternate : Option Stmt)
  | whileStmt (test : Expr) (body : Option Stmt)
deriving Repr

/-- FunctionDef node, from `p_function` (line 174). -/
structure FunctionDef where
  returnType : String
  name : String
  params : List Param
  body : List (Option Stmt)
deriving Repr

/-- Program node, from `p_program` (line 162): body is a list of functions. -/
structure Program where
  body : List FunctionDef
deriving Repr

/-- Symbol descriptor, embedding the Python dicts stored in the table:
`{'type':'function','returnType':..,'params':..}` for functions
(lines 51-55) and `{'type': dataType}` for variables (lines 65, 75).
The `type` field is the string the code compares against `'function'`. -/
structure SymbolInfo where
  type : String
  returnType : Option String
  params : Option (List Param)
deriving DecidableEq, Repr

/-- One scope: the embedding of one Python dict of the scope stack. -/
abbrev Scope := List (String × SymbolInfo)

namespace SymbolTable

/-- `enter_scope` (lines 10-11): push an empty mapping. -/
def enter_scope (scopes : List Scope) : List Scope := [] :: scopes

/-- `exit_scope` (lines 12-14): pop the current mapping only when more than
one mapping exists. -/
def exit_scope : List Scope → List Scope
  | _ :: b :: rest => b :: rest
  | scopes => scopes

/-- `add` (lines 15-16): insert into the current (top) mapping.  On an
empty stack the Python code would fault with an IndexError; that state is
unreachable from the initial table, and the embedding returns the stack
unchanged there. -/
def add (scopes : List Scope) (name : String) (info : SymbolInfo) : List Scope :=
  match scopes with
  | [] => []
  | sc :: rest => ((name, info) :: sc) :: rest

/-- `lookup` (lines 17-21): search innermost to outermost, first match. -/
def lookup : List Scope → String → Option SymbolInfo
  | [], _ => none
  | sc :: rest, n =>
    match List.lookup n sc with
    | some v => some v
    | none => lookup rest n

end SymbolTable

/-- Analyzer state: the `symbol_table.scopes` list and the `errors` list of
`SemanticAnalyzer` (lines 25-27). -/
structure St where
  scopes : List Scope
  errors : List String
deriving Repr

/-- `error` (lines 33-35): append the message to the error list (the print
side effect is diagnostics only). -/
def pushError (msg : String) (st : St) : St :=
  { st with errors := st.errors ++ [msg] }

/-- State-level `enter_scope`. -/
def enterS (st : St) : St := { st with scopes := SymbolTable.enter_scope st.scopes }

/-- State-level `exit_scope`. -/
def exitS (st : St) : St := { st with scopes := SymbolTable.exit_scope st.scopes }

/-- Message of `visit_VarDecl` (line 74). -/
def dupMsg (n : String) : String := "Variable '" ++ n ++ "' already declared in this scope"

/-- Message of `visit_Assignment` (line 81). -/
def assignMsg (n : String) : String := "Assignment to undeclared variable '" ++ n ++ "'"

/-- Message of `visit_Identifier` (line 86). -/
def useMsg (n : String) : String := "Use of undeclared variable '" ++ n ++ "'"

/-- Message of `visit_Call` (line 91). -/
def callMsg (n : String) : String := "Call to undeclared or non-function '" ++ n ++ "'"

/-- Membership test `node['name'] in self.symbol_table.scopes[-1]`
(line 73); on an empty stack Python would fault, embedded as `false`. -/
def currentHas (st : St) (n : String) : Bool :=
  match st.scopes with
  | sc :: _ => (List.lookup n sc).isSome
  | [] => false

mutual

/-- Expression visiting: the cases visit_Literal (126), visit_Identifier
(84-86), visit_BinaryOp (95-97), visit_Assignment (79-82) and visit_Call
(88-93) of the dispatching `visit`. -/
def visitExpr : Expr → St → St
  | .literal _, st => st
  | .identifier n, st =>
    if (SymbolTable.lookup st.scopes n).isNone then pushError (useMsg n) st else st
  | .binaryOp _ l r, st => visitExpr r (visitExpr l st)
  | .assignment t v, st =>
    visitExpr v
      (if (SymbolTable.lookup st.scopes t).isNone then pushError (assignMsg t) st else st)
  | .call c args, st =>
    let st1 :=
      match SymbolTable.lookup st.scopes c with
      | none => pushError (callMsg c) st
      | some s => if s.type == "function" then st else pushError (callMsg c) st
    visitExprList args st1

/-- Visit of the argument list of a Call (lines 92-93). -/
def visitExprList : List Expr → St → St
  | [], st => st
  | e :: rest, st => visitExprList rest (visitExpr e st)

end

mutual

/-- The statement handlers of the dispatching `visit`: visit_VarDecl
(lines 72-77), visit_Return (119-121), visit_Print (123-124), visit_Block
(115-117), visit_If (99-107) and visit_While (109-113), with expression
statements dispatched to the expression cases. -/
def visitStmt : Stmt → St → St
  | .varDecl dt n init, st =>
    let st1 := if currentHas st n then pushError (dupMsg n) st else st
    let st2 := { st1 with scopes := SymbolTable.add st1.scopes n ⟨dt, none, none⟩ }
    match init with
    | some e => visitExpr e st2
    | none => st2
  | .exprStmt e, st => visitExpr e st
  | .print v, st => visitExpr v st
  | .ret v, st =>
    match v with
    | some e => visitExpr e st
    | none => st
  | .block body, st => visitList body st
  | .ifStmt t c a, st =>
    let st1 := visitExpr t st
    let st2 := exitS (visit c (enterS st1))
    match a with
    | none => st2
    | some _ => exitS (visit a (enterS st2))
  | .whileStmt t b, st =>
    let st1 := visitExpr t st
    exitS (visit b (enterS st1))

/-- `visit` on a statement position (lines 37-42): return immediately on
`None` (line 38), otherwise dispatch on the node tag. -/
def visit : Option Stmt → St → St
  | none, st => st
  | some s, st => visitStmt s st

/-- Visit of a statement list (function body or block body, lines 67-68 and
116-117). -/
def visitList : List (Option Stmt) → St → St
  | [], st => st
  | s :: rest, st => visitList rest (visit s st)

end

/-- The symbol registered for a function by the pre-pass (lines 51-55). -/
def funcSymbol (f : FunctionDef) : SymbolInfo :=
  ⟨"function", some f.returnType, some f.params⟩

/-- `visit_FunctionDef` (lines 60-70): enter a scope, register the
parameters, visit the body, exit the scope. -/
def visit_FunctionDef (f : FunctionDef) (st : St) : St :=
  let st1 := enterS st
  let st2 := f.params.foldl
    (fun s p => { s with scopes := SymbolTable.add s.scopes p.name ⟨p.dataType, none, none⟩ }) st1
  let st3 := visitList f.body st2
  exitS st3

/-- The first loop of `visit_Program` (lines 49-55): register every
function signature into the current (global) scope.  The guard
`func['type'] == 'FunctionDef'` is vacuous because the grammar only puts
FunctionDef nodes in a program body. -/
def registerFuncs (fs : List FunctionDef) (st : St) : St :=
  fs.foldl (fun s f => { s with scopes := SymbolTable.add s.scopes f.name (funcSymbol f) }) st

/-- `visit_Program` (lines 47-58): pre-pass registering all signatures,
then visit every function. -/
def visit_Program (p : Program) (st : St) : St :=
  (p.body.foldl (fun s f => visit_FunctionDef f s) (registerFuncs p.body st))

/-- The fresh analyzer state: `scopes = [{}]`, `errors = []` (lines 9, 27). -/
def initState : St := ⟨[[]], []⟩

/-- The error list produced by `analyze` (lines 29-31). -/
def analyzeErrors (p : Program) : List String := (visit_Program p initState).errors

/-- `analyze` (lines 29-31): `len(self.errors) == 0`. -/
def analyze (p : Program) : Bool := (analyzeErrors p).isEmpty

/-! ### Code generator (`generate`, lines 334-400) -/

/-- The indent string `"    " * indent` (line 336). -/
def indStr : Nat → String
  | 0 => ""
  | n + 1 => indStr n ++ "    "

mutual

/-- Expression rendering: the Assignment (358-359), BinaryOp (389-390),
Call (391-393), Literal (394-395) and Identifier (396-397) branches of
`generate`.  Only the Assignment branch uses the indent; nested
subexpressions are rendered with the Python default `indent=0`. -/
def genExpr : Expr → Nat → String
  | .assignment t v, ind => indStr ind ++ t ++ " = " ++ genExpr v 0 ++ "\n"
  | .binaryOp op l r, _ => "(" ++ genExpr l 0 ++ " " ++ op ++ " " ++ genExpr r 0 ++ ")"
  | .call c args, _ => c ++ "(" ++ String.intercalate ", " (genExprArgs args) ++ ")"
  | .literal v, _ => toString v
  | .identifier n, _ => n

/-- Rendering of the argument list of a Call (line 392). -/
def genExprArgs : List Expr → List String
  | [] => []
  | e :: rest => genExpr e 0 :: genExprArgs rest

end

/-- Tag test `node['type'] == 'Block'` used by the If and While branches
(lines 366, 372, 379). -/
def isBlock : Stmt → Bool
  | .block _ => true
  | _ => false

mutual

/-- Statement rendering: the VarDecl (355-357), Return (360-361), Print
(362-363), If (364-376), While (377-383) and Block (384-388) branches of
`generate`, with expression statements rendered by the expression branches.
The result is `none` exactly where the Python code faults (a branch or
loop body that is the null statement, see `genBranch`). -/
def genStmt : Stmt → Nat → Option String
  | .varDecl _ n init, ind =>
    some (indStr ind ++ n ++ " = " ++
      (match init with | some e => genExpr e 0 | none => "0") ++ "\n")
  | .exprStmt e, ind => some (genExpr e ind)
  | .ret v, ind =>
    some (indStr ind ++ "return " ++
      (match v with | some e => genExpr e 0 | none => "") ++ "\n")
  | .print v, ind => some (indStr ind ++ "print(" ++ genExpr v 0 ++ ")\n")
  | .block body, ind => genStmtList body ind
  | .ifStmt t c a, ind => do
    let cs ← genBranch c ind
    let es ←
      match a with
      | none => pure ""
      | some alt => do
        let s ← genBranch (some alt) ind
        pure (indStr ind ++ "else:\n" ++ s)
    pure (indStr ind ++ "if " ++ genExpr t 0 ++ ":\n" ++ cs ++ es)
  | .whileStmt t b, ind => do
    let bs ← genBranch b ind
    pure (indStr ind ++ "while " ++ genExpr t 0 ++ ":\n" ++ bs)

/-- Rendering of an If branch or While body (lines 366-369, 372-375,
379-382): a Block is rendered one indent deeper; a non-Block statement is
rendered at indent 0, stripped, and placed on one deeper-indented line.
Python reads `node[...]['type']` first, so a null statement in this
position faults (TypeError), embedded as `none`. -/
def genBranch : Option Stmt → Nat → Option String
  | none, _ => none
  | some s, ind =>
    if isBlock s then genStmt s (ind + 1)
    else do
      let t ← genStmt s 0
      pure (indStr (ind + 1) ++ t.trim ++ "\n")

/-- Rendering of a statement list at one indent (lines 352-353, 386-387);
`generate(None) = ""` (line 335) for null entries. -/
def genStmtList : List (Option Stmt) → Nat → Option String
  | [], _ => some ""
  | none :: rest, ind => genStmtList rest ind
  | some s :: rest, ind => do
    let a ← genStmt s ind
    let b ← genStmtList rest ind
    pure (a ++ b)

end

/-- The FunctionDef branch of `generate` (lines 346-354): header with the
parameter names, then `pass` when the body list is empty
(`if not node['body']`, line 349), otherwise the rendered statements. -/
def genFunc (f : FunctionDef) (ind : Nat) : Option String :=
  let head := indStr ind ++ "def " ++ f.name ++ "(" ++
    String.intercalate ", " (f.params.map (fun p => p.name)) ++ "):\n"
  if f.body.isEmpty then some (head ++ indStr ind ++ "    pass\n")
  else do
    let b ← genStmtList f.body (ind + 1)
    pure (head ++ b)

/-- The loop of the Program branch (lines 341-342): each function rendered
at indent 0 followed by a blank line. -/
def genFuncs : List FunctionDef → Option String
  | [] => some ""
  | f :: rest => do
    let a ← genFunc f 0
    let b ← genFuncs rest
    pure (a ++ "\n" ++ b)

/-- The Program branch of `generate` (lines 338-345): fixed preamble, the
functions, then the `main()` invocation. -/
def genProgram (p : Program) : Option String := do
  let fs ← genFuncs p.body
  pure ("# Transpiled Python Code\nimport sys\n\n" ++ fs ++ "main()\n")

/-! ### Auxiliary notions used by the statements of the theorems -/

/-- Number of occurrences of one message in an error list. -/
def countMsg (m : String) (l : List String) : Nat := (l.filter (fun x => x == m)).length

/-- First non-`none` entry of a list of options (used to characterise
`SymbolTable.lookup` through the per-scope views). -/
def firstSome : List (Option SymbolInfo) → Option SymbolInfo
  | [] => none
  | some v :: _ => some v
  | none :: rest => firstSome rest

/-- The per-scope view of one name: what each mapping of the stack binds
it to, innermost first. -/
def nMap (n : String) (scopes : List Scope) : List (Option SymbolInfo) :=
  scopes.map (fun sc => List.lookup n sc)

/-- Whether a lookup result is a function symbol, i.e. passes the test
`symbol.get('type') != 'function'` of `visit_Call` (line 90). -/
def isFunSym : Option SymbolInfo → Bool
  | some s => s.type == "function"
  | none => false

mutual

/-- No declaration of the name `n` occurs in the statement: no `VarDecl`
anywhere in it (including in nested blocks and branches) is named `n`. -/
def stmtAvoids (n : String) : Stmt → Bool
  | .varDecl _ m _ => !(m == n)
  | .exprStmt _ => true
  | .print _ => true
  | .ret _ => true
  | .block body => listAvoids n body
  | .ifStmt _ c a => optAvoids n c && optAvoids n a
  | .whileStmt _ b => optAvoids n b

/-- `stmtAvoids` lifted to a nullable statement. -/
def optAvoids (n : String) : Option Stmt → Bool
  | none => true
  | some s => stmtAvoids n s

/-- `stmtAvoids` over a statement list. -/
def listAvoids (n : String) : List (Option Stmt) → Bool
  | [] => true
  | s :: rest => optAvoids n s && listAvoids n rest

end

/-- No parameter and no variable declaration of the function is named `n`
(so a use of `n` inside the body can only resolve to the global scope). -/
def funcAvoids (n : String) (f : FunctionDef) : Bool :=
  f.params.all (fun p => !(p.name == n)) && listAvoids n f.body

/-- A scope-stack operation: one call of `enter_scope` or `exit_scope`. -/
inductive ScopeOp where
  | enter
  | exit
deriving DecidableEq, Repr

/-- Run a sequence of `enter_scope` / `exit_scope` calls on a stack. -/
def applyOps (ops : List ScopeOp) (scopes : List Scope) : List Scope :=
  ops.foldl
    (fun s op =>
      match op with
      | ScopeOp.enter => SymbolTable.enter_scope s
      | ScopeOp.exit => SymbolTable.exit_scope s)
    scopes

/-! ### Concrete programs used as inputs of the claims -/

/-- The AST the parser yields for scenario C of the spec:
`int main(){ if(1){ int y=10; } y=20; return 0; }`. -/
def scenarioC : Program :=
  ⟨[⟨"int", "main", [],
     [some (.ifStmt (.literal 1)
        (some (.block [some (.varDecl "int" "y" (some (.literal 10)))])) none),
      some (.exprStmt (.assignment "y" (.literal 20))),
      some (.ret (some (.literal 0)))]⟩]⟩

/-- The AST the parser yields for
`int f(){ return 0; } int main(){ f(); return 0; }` — a bare call used as
an expression statement. -/
def callProg : Program :=
  ⟨[⟨"int", "f", [], [some (.ret (some (.literal 0)))]⟩,
    ⟨"int", "main", [], [some (.exprStmt (.call "f" [])), some (.ret (some (.literal 0)))]⟩]⟩

/-- The AST the parser yields for `int f(){ ; }` — a body whose only entry
is the null statement. -/
def fNull : FunctionDef := ⟨"int", "f", [], [none]⟩

/-- The AST the parser yields for two top-level functions with the same
name: `int f(){ return 0; } int f(){ return 1; }`. -/
def dupFnProg : Program :=
  ⟨[⟨"int", "f", [], [some (.ret (some (.literal 0)))]⟩,
    ⟨"int", "f", [], [some (.ret (some (.literal 1)))]⟩]⟩

/-- The AST the parser yields for
`int main(){ int x = helper(); } int helper(){ return 0; }` — a forward
call to a function defined later in the program body. -/
def fwdProg : Program :=
  ⟨[⟨"int", "main", [], [some (.varDecl "int" "x" (some (.call "helper" [])))]⟩,
    ⟨"int", "helper", [], [some (.ret (some (.literal 0)))]⟩]⟩

/-- The effect of the registration pre-pass on the current scope alone:
each function signature is inserted in turn (overwriting, in the
association-list reading, any earlier binding of the same name). -/
def regFold (fs : List FunctionDef) (sc : Scope) : Scope :=
  fs.foldl (fun s f => (f.name, funcSymbol f) :: s) sc

/-- A state transformer accumulates: it appends its findings after the
errors already recorded (never truncating or replacing them), and the
scopes it produces do not depend on the errors recorded so far. -/
def Accum (φ : St → St) : Prop :=
  ∀ st, φ st = ⟨(φ ⟨st.scopes, []⟩).scopes, st.errors ++ (φ ⟨st.scopes, []⟩).errors⟩

/-! ### Basic lemmas about the symbol table -/

theorem length_add (scopes : List Scope) (n : String) (i : SymbolInfo) :
    (SymbolTable.add scopes n i).length = scopes.length := by
  cases scopes <;> simp [SymbolTable.add]

theorem length_enter (scopes : List Scope) :
    (SymbolTable.enter_scope scopes).length = scopes.length + 1 := by
  simp [SymbolTable.enter_scope]

theorem exit_cons_cons (a b : Scope) (rest : List Scope) :
    SymbolTable.exit_scope (a :: b :: rest) = b :: rest := rfl

theorem exit_short (scopes : List Scope) (h : scopes.length ≤ 1) :
    SymbolTable.exit_scope scopes = scopes := by
  match scopes with
  | [] => rfl
  | [a] => rfl
  | a :: b :: rest => simp at h

theorem length_exit (scopes : List Scope) (h : 2 ≤ scopes.length) :
    (SymbolTable.exit_scope scopes).length = scopes.length - 1 := by
  match scopes with
  | [] => simp at h
  | [a] => simp at h
  | a :: b :: rest => simp [SymbolTable.exit_scope]

theorem lookup_eq_firstSome (scopes : List Scope) (n : String) :
    SymbolTable.lookup scopes n = firstSome (nMap n scopes) := by
  induction scopes with
  | nil => rfl
  | cons sc rest ih =>
    simp only [SymbolTable.lookup, nMap, List.map_cons]
    cases h : List.lookup n sc with
    | none => simpa [firstSome, nMap] using ih
    | some v => simp [firstSome]

theorem lookup_congr_of_nMap_eq {s1 s2 : List Scope} {n : String}
    (h : nMap n s1 = nMap n s2) :
    SymbolTable.lookup s1 n = SymbolTable.lookup s2 n := by
  rw [lookup_eq_firstSome, lookup_eq_firstSome, h]

theorem scope_lookup_cons_ne (sc : Scope) (m n : String) (i : SymbolInfo)
    (h : (n == m) = false) :
    List.lookup n ((m, i) :: sc) = List.lookup n sc := by
  simp [List.lookup, h]

/-! ### Expression visits never modify the scope stack -/

mutual

theorem scopes_visitExpr : ∀ (e : Expr) (st : St), (visitExpr e st).scopes = st.scopes
  | .literal _, _ => rfl
  | .identifier n, st => by
    simp only [visitExpr]
    split <;> rfl
  | .binaryOp op l r, st => by
    simp only [visitExpr]
    rw [scopes_visitExpr r, scopes_visitExpr l]
  | .assignment t v, st => by
    simp only [visitExpr]
    rw [scopes_visitExpr v]
    split <;> rfl
  | .call c args, st => by
    simp only [visitExpr]
    rw [scopes_visitExprList args]
    split
    · rfl
    · split <;> rfl

theorem scopes_visitExprList : ∀ (l : List Expr) (st : St),
    (visitExprList l st).scopes = st.scopes
  | [], _ => rfl
  | e :: rest, st => by
    simp only [visitExprList]
    rw [scopes_visitExprList rest, scopes_visitExpr e]

end

/-! ### Error accumulation -/

theorem accum_id : Accum (fun st => st) := by
  intro st
  obtain ⟨sc, er⟩ := st
  simp

theorem accum_pushError (m : String) : Accum (pushError m) := by
  intro st
  obtain ⟨sc, er⟩ := st
  simp [pushError]

theorem accum_scopesOnly (f : List Scope → List Scope) :
    Accum (fun st => ⟨f st.scopes, st.errors⟩) := by
  intro st
  obtain ⟨sc, er⟩ := st
  simp

theorem accum_comp {φ ψ : St → St} (hφ : Accum φ) (hψ : Accum ψ) :
    Accum (fun st => φ (ψ st)) := by
  intro st
  simp only []
  rw [hφ (ψ st), hψ st, hφ (ψ ⟨st.scopes, []⟩)]
  simp

mutual

theorem errAcc_visitExpr : ∀ (e : Expr), Accum (visitExpr e)
  | .literal v => by
    intro st
    obtain ⟨sc, er⟩ := st
    simp [visitExpr]
  | .identifier n => by
    intro st
    obtain ⟨sc, er⟩ := st
    by_cases h : (SymbolTable.lookup sc n).isNone = true <;>
      simp [visitExpr, h, pushError]
  | .binaryOp op l r => by
    intro st
    have h := accum_comp (errAcc_visitExpr r) (errAcc_visitExpr l) st
    simpa [visitExpr] using h
  | .assignment t v => by
    have hψ : Accum (fun st =>
        if (SymbolTable.lookup st.scopes t).isNone then pushError (assignMsg t) st else st) := by
      intro st
      obtain ⟨sc, er⟩ := st
      by_cases h : (SymbolTable.lookup sc t).isNone = true <;> simp [h, pushError]
    intro st
    have h := accum_comp (errAcc_visitExpr v) hψ st
    simpa [visitExpr] using h
  | .call c args => by
    have hψ : Accum (fun st =>
        match SymbolTable.lookup st.scopes c with
        | none => pushError (callMsg c) st
        | some s => if s.type == "function" then st else pushError (callMsg c) st) := by
      intro st
      obtain ⟨sc, er⟩ := st
      cases h : SymbolTable.lookup sc c with
      | none => simp [h, pushError]
      | some s =>
        by_cases ht : (s.type == "function") = true <;> simp [h, ht, pushError]
    intro st
    have h := accum_comp (errAcc_visitExprList args) hψ st
    simpa [visitExpr] using h

theorem errAcc_visitExprList : ∀ (l : List Expr), Accum (visitExprList l)
  | [] => by
    intro st
    obtain ⟨sc, er⟩ := st
    simp [visitExprList]
  | e :: rest => by
    intro st
    have h := accum_comp (errAcc_visitExprList rest) (errAcc_visitExpr e) st
    simpa [visitExprList] using h

end

mutual

theorem errAcc_visit : ∀ (s : Option Stmt), Accum (visit s)
  | none => by
    intro st
    obtain ⟨sc, er⟩ := st
    simp [visit, visitStmt]
  | some (.varDecl dt n init) => by
    have hψ : Accum (fun st =>
        { (if currentHas st n then pushError (dupMsg n) st else st) with
          scopes := SymbolTable.add
            (if currentHas st n then pushError (dupMsg n) st else st).scopes n ⟨dt, none, none⟩ }) := by
      intro st
      obtain ⟨sc, er⟩ := st
      by_cases h : currentHas ⟨sc, er⟩ n = true <;>
        simp [currentHas, pushError] at h ⊢ <;> simp [h, pushError, currentHas]
    intro st
    cases init with
    | none =>
      have h := hψ st
      simpa [visit, visitStmt] using h
    | some e =>
      have h := accum_comp (errAcc_visitExpr e) hψ st
      simpa [visit, visitStmt] using h
  | some (.exprStmt e) => by
    intro st
    have h := errAcc_visitExpr e st
    simpa [visit, visitStmt] using h
  | some (.print v) => by
    intro st
    have h := errAcc_visitExpr v st
    simpa [visit, visitStmt] using h
  | some (.ret v) => by
    intro st
    cases v with
    | none =>
      obtain ⟨sc, er⟩ := st
      simp [visit, visitStmt]
    | some e =>
      have h := errAcc_visitExpr e st
      simpa [visit, visitStmt] using h
  | some (.block body) => by
    intro st
    have h := errAcc_visitList body st
    simpa [visit, visitStmt] using h
  | some (.ifStmt t c a) => by
    have h2 : Accum (fun st => exitS (visit c (enterS (visitExpr t st)))) :=
      accum_comp (accum_scopesOnly SymbolTable.exit_scope)
        (accum_comp (errAcc_visit c)
          (accum_comp (accum_scopesOnly SymbolTable.enter_scope) (errAcc_visitExpr t)))
    intro st
    cases a with
    | none =>
      have h := h2 st
      simpa [visit, visitStmt, exitS, enterS] using h
    | some alt =>
      have h := (accum_comp (accum_scopesOnly SymbolTable.exit_scope)
        (accum_comp (errAcc_visit (some alt))
          (accum_comp (accum_scopesOnly SymbolTable.enter_scope) h2))) st
      simpa [visit, visitStmt, exitS, enterS] using h
  | some (.whileStmt t b) => by
    intro st
    have h := (accum_comp (accum_scopesOnly SymbolTable.exit_scope)
      (accum_comp (errAcc_visit b)
        (accum_comp (accum_scopesOnly SymbolTable.enter_scope) (errAcc_visitExpr t)))) st
    simpa [visit, visitStmt, exitS, enterS] using h

theorem errAcc_visitList : ∀ (l : List (Option Stmt)), Accum (visitList l)
  | [] => by
    intro st
    obtain ⟨sc, er⟩ := st
    simp [visitList]
  | s :: rest => by
    intro st
    have h := accum_comp (errAcc_visitList rest) (errAcc_visit s) st
    simpa [visitList, visit, visitStmt] using h

end

/-! ### Scope-stack depth preservation -/

theorem varDecl_branch_scopes (st : St) (n : String) :
    (if currentHas st n then pushError (dupMsg n) st else st).scopes = st.scopes := by
  split <;> rfl

theorem length_enterS (st : St) : (enterS st).scopes.length = st.scopes.length + 1 := by
  simp [enterS, length_enter]

theorem scopes_enterS_ne (st : St) : (enterS st).scopes ≠ [] := by
  simp [enterS, SymbolTable.enter_scope]

theorem exitS_scopes (st : St) : (exitS st).scopes = SymbolTable.exit_scope st.scopes := rfl

mutual

theorem depth_visit : ∀ (s : Option Stmt) (st : St), st.scopes ≠ [] →
    (visit s st).scopes.length = st.scopes.length
  | none, st, _ => by simp [visit, visitStmt]
  | some (.varDecl dt n init), st, _ => by
    cases init with
    | none =>
      simp only [visit, visitStmt]
      rw [length_add, varDecl_branch_scopes]
    | some e =>
      simp only [visit, visitStmt]
      rw [scopes_visitExpr, length_add, varDecl_branch_scopes]
  | some (.exprStmt e), st, _ => by
    simp only [visit, visitStmt]
    rw [scopes_visitExpr]
  | some (.print v), st, _ => by
    simp only [visit, visitStmt]
    rw [scopes_visitExpr]
  | some (.ret v), st, _ => by
    cases v with
    | none => simp [visit, visitStmt]
    | some e =>
      simp only [visit, visitStmt]
      rw [scopes_visitExpr]
  | some (.block body), st, h => by
    simp only [visit, visitStmt]
    exact depth_visitList body st h
  | some (.ifStmt t c a), st, h => by
    have hpos : 0 < st.scopes.length := List.length_pos.mpr h
    have h1 : (visitExpr t st).scopes = st.scopes := scopes_visitExpr t st
    have hen : (enterS (visitExpr t st)).scopes.length = st.scopes.length + 1 := by
      rw [length_enterS, h1]
    have hinner : (visit c (enterS (visitExpr t st))).scopes.length = st.scopes.length + 1 := by
      rw [depth_visit c _ (scopes_enterS_ne _), hen]
    have hst2 : (exitS (visit c (enterS (visitExpr t st)))).scopes.length = st.scopes.length := by
      rw [exitS_scopes, length_exit _ (by omega), hinner]
      omega
    cases a with
    | none =>
      simp only [visit, visitStmt]
      exact hst2
    | some alt =>
      have hen2 : (enterS (exitS (visit c (enterS (visitExpr t st))))).scopes.length
          = st.scopes.length + 1 := by
        rw [length_enterS, hst2]
      have hinner2 :
          (visit (some alt) (enterS (exitS (visit c (enterS (visitExpr t st)))))).scopes.length
          = st.scopes.length + 1 := by
        rw [depth_visit (some alt) _ (scopes_enterS_ne _), hen2]
      have hfin :
          (exitS (visit (some alt)
            (enterS (exitS (visit c (enterS (visitExpr t st))))))).scopes.length
          = st.scopes.length := by
        rw [exitS_scopes, length_exit _ (by omega), hinner2]
        omega
      simp only [visit, visitStmt]
      exact hfin
  | some (.whileStmt t b), st, h => by
    have hpos : 0 < st.scopes.length := List.length_pos.mpr h
    have h1 : (visitExpr t st).scopes = st.scopes := scopes_visitExpr t st
    have hen : (enterS (visitExpr t st)).scopes.length = st.scopes.length + 1 := by
      rw [length_enterS, h1]
    have hinner : (visit b (enterS (visitExpr t st))).scopes.length = st.scopes.length + 1 := by
      rw [depth_visit b _ (scopes_enterS_ne _), hen]
    have hfin : (exitS (visit b (enterS (visitExpr t st)))).scopes.length = st.scopes.length := by
      rw [exitS_scopes, length_exit _ (by omega), hinner]
      omega
    simp only [visit, visitStmt]
    exact hfin

theorem depth_visitList : ∀ (l : List (Option Stmt)) (st : St), st.scopes ≠ [] →
    (visitList l st).scopes.length = st.scopes.length
  | [], st, _ => by simp [visitList]
  | s :: rest, st, h => by
    simp only [visitList]
    have h1 := depth_visit s st h
    have h2 : (visit s st).scopes ≠ [] := by
      rw [← List.length_pos, h1]
      exact List.length_pos.mpr h
    rw [depth_visitList rest _ h2, h1]

end

theorem paramFold_scopes_length (ps : List Param) (st : St) :
    ((ps.foldl (fun s p =>
      { s with scopes := SymbolTable.add s.scopes p.name ⟨p.dataType, none, none⟩ }) st)).scopes.length
      = st.scopes.length := by
  induction ps generalizing st with
  | nil => rfl
  | cons p rest ih =>
    simp only [List.foldl_cons]
    rw [ih]
    simp [length_add]

theorem paramFold_errors (ps : List Param) (st : St) :
    ((ps.foldl (fun s p =>
      { s with scopes := SymbolTable.add s.scopes p.name ⟨p.dataType, none, none⟩ }) st)).errors
      = st.errors := by
  induction ps generalizing st with
  | nil => rfl
  | cons p rest ih =>
    simp only [List.foldl_cons]
    rw [ih]

theorem depth_visitFunc (f : FunctionDef) (st : St) (h : st.scopes ≠ []) :
    (visit_FunctionDef f st).scopes.length = st.scopes.length := by
  have hpos : 0 < st.scopes.length := List.length_pos.mpr h
  simp only [visit_FunctionDef]
  have h2 : ((f.params.foldl (fun s p =>
      { s with scopes := SymbolTable.add s.scopes p.name ⟨p.dataType, none, none⟩ })
      (enterS st))).scopes.length = st.scopes.length + 1 := by
    rw [paramFold_scopes_length]
    simp [enterS, length_enter]
  have h3 := depth_visitList f.body
    ((f.params.foldl (fun s p =>
      { s with scopes := SymbolTable.add s.scopes p.name ⟨p.dataType, none, none⟩ }) (enterS st)))
    (by rw [← List.length_pos, h2]; omega)
  simp only [exitS]
  rw [length_exit _ (by omega), h3, h2]
  omega

theorem registerFuncs_scopes_length (fs : List FunctionDef) (st : St) :
    (registerFuncs fs st).scopes.length = st.scopes.length := by
  induction fs generalizing st with
  | nil => rfl
  | cons f rest ih =>
    simp only [registerFuncs, List.foldl_cons] at ih ⊢
    rw [ih]
    simp [length_add]

theorem registerFuncs_errors (fs : List FunctionDef) (st : St) :
    (registerFuncs fs st).errors = st.errors := by
  induction fs generalizing st with
  | nil => rfl
  | cons f rest ih =>
    simp only [registerFuncs, List.foldl_cons] at ih ⊢
    rw [ih]

theorem funcFold_scopes_length (fs : List FunctionDef) (st : St) (h : st.scopes ≠ []) :
    (fs.foldl (fun s f => visit_FunctionDef f s) st).scopes.length = st.scopes.length := by
  induction fs generalizing st with
  | nil => rfl
  | cons f rest ih =>
    simp only [List.foldl_cons]
    have h1 := depth_visitFunc f st h
    have h2 : (visit_FunctionDef f st).scopes ≠ [] := by
      rw [← List.length_pos, h1]
      exact List.length_pos.mpr h
    rw [ih _ h2, h1]

theorem visit_Program_scopes_length (p : Program) :
    (visit_Program p initState).scopes.length = 1 := by
  simp only [visit_Program]
  have h1 : (registerFuncs p.body initState).scopes.length = 1 := by
    rw [registerFuncs_scopes_length]
    rfl
  rw [funcFold_scopes_length _ _ (by rw [← List.length_pos, h1]; omega), h1]

/-! ### The four error messages are pairwise distinguishable -/

theorem prefix_head_ne {a b m n s t : String} {c d : Char}
    (ha : a.data.head? = some c) (hb : b.data.head? = some d) (hcd : c ≠ d) :
    a ++ m ++ s ≠ b ++ n ++ t := by
  intro h
  have hd := congrArg (fun x => x.data.head?) h
  simp only [String.data_append, List.head?_append, ha, hb, Option.or] at hd
  exact hcd (Option.some.inj hd)

theorem use_ne_dup (x m : String) : useMsg x ≠ dupMsg m :=
  prefix_head_ne (c := 'U') (d := 'V') (by decide) (by decide) (by decide)

theorem assign_ne_dup (x m : String) : assignMsg x ≠ dupMsg m :=
  prefix_head_ne (c := 'A') (d := 'V') (by decide) (by decide) (by decide)

theorem call_ne_dup (x m : String) : callMsg x ≠ dupMsg m :=
  prefix_head_ne (c := 'C') (d := 'V') (by decide) (by decide) (by decide)

theorem use_ne_call (x n : String) : useMsg x ≠ callMsg n :=
  prefix_head_ne (c := 'U') (d := 'C') (by decide) (by decide) (by decide)

theorem assign_ne_call (x n : String) : assignMsg x ≠ callMsg n :=
  prefix_head_ne (c := 'A') (d := 'C') (by decide) (by decide) (by decide)

theorem dup_ne_call (x n : String) : dupMsg x ≠ callMsg n :=
  prefix_head_ne (c := 'V') (d := 'C') (by decide) (by decide) (by decide)

theorem callMsg_inj {m n : String} (h : callMsg m = callMsg n) : m = n := by
  have hd := congrArg String.data h
  simp only [callMsg, String.data_append] at hd
  exact String.ext (List.append_cancel_left (List.append_cancel_right hd))

/-! ### Counting occurrences of one message -/

theorem countMsg_append (m : String) (l1 l2 : List String) :
    countMsg m (l1 ++ l2) = countMsg m l1 + countMsg m l2 := by
  simp [countMsg, List.filter_append]

theorem countMsg_single_ne {m b : String} (h : b ≠ m) : countMsg m [b] = 0 := by
  have hb : (b == m) = false := by
    simpa using h
  simp [countMsg, List.filter, hb]

theorem countMsg_single_eq (m : String) : countMsg m [m] = 1 := by
  simp [countMsg, List.filter]

theorem countMsg_zero_iff (m : String) (l : List String) :
    countMsg m l = 0 ↔ m ∉ l := by
  induction l with
  | nil => simp [countMsg]
  | cons a rest ih =>
    by_cases h : a = m
    · subst h
      have hcount : countMsg a (a :: rest) = countMsg a rest + 1 := by
        simp [countMsg, List.filter_cons]
      simp [hcount]
    · have hb : (a == m) = false := by
        simpa using h
      have h1 : countMsg m (a :: rest) = countMsg m rest := by
        simp [countMsg, List.filter_cons, hb]
      rw [h1, ih]
      constructor
      · intro hm
        simp only [List.mem_cons, not_or]
        exact ⟨fun heq => h heq.symm, hm⟩
      · intro hm
        simp only [List.mem_cons, not_or] at hm
        exact hm.2

/-! ### Expression visits never record a duplicate-declaration message -/

theorem pushError_errors (m : String) (st : St) :
    (pushError m st).errors = st.errors ++ [m] := rfl

mutual

theorem dupCount_visitExpr : ∀ (e : Expr) (st : St) (m : String),
    countMsg (dupMsg m) (visitExpr e st).errors = countMsg (dupMsg m) st.errors
  | .literal _, st, m => by simp [visitExpr]
  | .identifier n, st, m => by
    simp only [visitExpr]
    split
    · rw [pushError_errors, countMsg_append, countMsg_single_ne (use_ne_dup n m)]
      omega
    · rfl
  | .binaryOp op l r, st, m => by
    simp only [visitExpr]
    rw [dupCount_visitExpr r, dupCount_visitExpr l]
  | .assignment t v, st, m => by
    simp only [visitExpr]
    rw [dupCount_visitExpr v]
    split
    · rw [pushError_errors, countMsg_append, countMsg_single_ne (assign_ne_dup t m)]
      omega
    · rfl
  | .call c args, st, m => by
    simp only [visitExpr]
    rw [dupCount_visitExprList args]
    split
    · rw [pushError_errors, countMsg_append, countMsg_single_ne (call_ne_dup c m)]
      omega
    · split
      · rfl
      · rw [pushError_errors, countMsg_append, countMsg_single_ne (call_ne_dup c m)]
        omega

theorem dupCount_visitExprList : ∀ (l : List Expr) (st : St) (m : String),
    countMsg (dupMsg m) (visitExprList l st).errors = countMsg (dupMsg m) st.errors
  | [], st, m => by simp [visitExprList]
  | e :: rest, st, m => by
    simp only [visitExprList]
    rw [dupCount_visitExprList rest, dupCount_visitExpr e]

end

/-! ### The per-scope view of one name -/

theorem lookup_enter (scopes : List Scope) (n : String) :
    SymbolTable.lookup (SymbolTable.enter_scope scopes) n = SymbolTable.lookup scopes n := by
  simp [SymbolTable.enter_scope, SymbolTable.lookup, List.lookup]

theorem nMap_eq_nil_iff (n : String) (scopes : List Scope) :
    nMap n scopes = [] ↔ scopes = [] := by
  simp [nMap]

theorem add_nMap {n m : String} (scopes : List Scope) (i : SymbolInfo)
    (h : (n == m) = false) :
    nMap n (SymbolTable.add scopes m i) = nMap n scopes := by
  cases scopes with
  | nil => rfl
  | cons sc rest => simp [SymbolTable.add, nMap, List.lookup, h]

theorem enter_nMap (n : String) (scopes : List Scope) :
    nMap n (SymbolTable.enter_scope scopes) = none :: nMap n scopes := by
  simp [nMap, SymbolTable.enter_scope, List.lookup]

theorem exit_nMap {n : String} {inner base : List Scope}
    (h : nMap n inner = none :: nMap n base) (hb : base ≠ []) :
    nMap n (SymbolTable.exit_scope inner) = nMap n base := by
  match inner with
  | [] => simp [nMap] at h
  | a :: rest =>
    have hrest : nMap n rest = nMap n base := by
      simpa [nMap] using congrArg List.tail h
    match rest with
    | [] =>
      exact absurd ((nMap_eq_nil_iff n base).mp hrest.symm) hb
    | b :: l =>
      rw [exit_cons_cons]
      exact hrest

/-! ### Call-resolution counting: expressions -/

mutual

theorem callCount_visitExpr : ∀ (e : Expr) (st : St) (n : String),
    isFunSym (SymbolTable.lookup st.scopes n) = true →
    countMsg (callMsg n) (visitExpr e st).errors = countMsg (callMsg n) st.errors
  | .literal _, st, n, _ => by simp [visitExpr]
  | .identifier m, st, n, _ => by
    simp only [visitExpr]
    split
    · rw [pushError_errors, countMsg_append, countMsg_single_ne (use_ne_call m n)]
      omega
    · rfl
  | .binaryOp op l r, st, n, h => by
    simp only [visitExpr]
    rw [callCount_visitExpr r _ n (by rw [scopes_visitExpr]; exact h),
      callCount_visitExpr l _ n h]
  | .assignment t v, st, n, h => by
    simp only [visitExpr]
    have hsc : (if (SymbolTable.lookup st.scopes t).isNone
        then pushError (assignMsg t) st else st).scopes = st.scopes := by
      split <;> rfl
    rw [callCount_visitExpr v _ n (by rw [hsc]; exact h)]
    split
    · rw [pushError_errors, countMsg_append, countMsg_single_ne (assign_ne_call t n)]
      omega
    · rfl
  | .call c args, st, n, h => by
    simp only [visitExpr]
    have hsc : (match SymbolTable.lookup st.scopes c with
        | none => pushError (callMsg c) st
        | some s => if s.type == "function" then st else pushError (callMsg c) st).scopes
        = st.scopes := by
      split
      · rfl
      · split <;> rfl
    rw [callCount_visitExprList args _ n (by rw [hsc]; exact h)]
    by_cases hc : c = n
    · subst hc
      cases hl : SymbolTable.lookup st.scopes c with
      | none =>
        rw [hl] at h
        simp [isFunSym] at h
      | some s =>
        rw [hl] at h
        simp only [isFunSym] at h
        simp [hl, h]
    · have hne : callMsg c ≠ callMsg n := fun he => hc (callMsg_inj he)
      split
      · rw [pushError_errors, countMsg_append, countMsg_single_ne hne]
        omega
      · split
        · rfl
        · rw [pushError_errors, countMsg_append, countMsg_single_ne hne]
          omega

theorem callCount_visitExprList : ∀ (l : List Expr) (st : St) (n : String),
    isFunSym (SymbolTable.lookup st.scopes n) = true →
    countMsg (callMsg n) (visitExprList l st).errors = countMsg (callMsg n) st.errors
  | [], st, n, _ => by simp [visitExprList]
  | e :: rest, st, n, h => by
    simp only [visitExprList]
    rw [callCount_visitExprList rest _ n (by rw [scopes_visitExpr]; exact h),
      callCount_visitExpr e _ n h]

end

/-! ### Call-resolution counting: statements -/

theorem enterS_scopes (st : St) : (enterS st).scopes = SymbolTable.enter_scope st.scopes := rfl

theorem enterS_errors (st : St) : (enterS st).errors = st.errors := rfl

theorem exitS_errors (st : St) : (exitS st).errors = st.errors := rfl

mutual

theorem funPres_visit : ∀ (s : Option Stmt) (st : St) (n : String),
    st.scopes ≠ [] → isFunSym (SymbolTable.lookup st.scopes n) = true → optAvoids n s = true →
    nMap n (visit s st).scopes = nMap n st.scopes ∧
    countMsg (callMsg n) (visit s st).errors = countMsg (callMsg n) st.errors
  | none, st, n, _, _, _ => by simp [visit, visitStmt]
  | some (.varDecl dt m init), st, n, hne, hfun, hav => by
    have hmn : (m == n) = false := by
      simpa [optAvoids, stmtAvoids] using hav
    have hmn2 : m ≠ n := by simpa using hmn
    have hnm : (n == m) = false := by simpa using Ne.symm hmn2
    have hBcnt : countMsg (callMsg n)
        (if currentHas st m then pushError (dupMsg m) st else st).errors
        = countMsg (callMsg n) st.errors := by
      split
      · rw [pushError_errors, countMsg_append, countMsg_single_ne (dup_ne_call m n)]
        omega
      · rfl
    have h2map : nMap n (SymbolTable.add
        (if currentHas st m then pushError (dupMsg m) st else st).scopes m ⟨dt, none, none⟩)
        = nMap n st.scopes := by
      rw [varDecl_branch_scopes, add_nMap _ _ hnm]
    cases init with
    | none =>
      simp only [visit, visitStmt]
      exact ⟨h2map, hBcnt⟩
    | some e =>
      have hF : isFunSym (SymbolTable.lookup (SymbolTable.add
          (if currentHas st m then pushError (dupMsg m) st else st).scopes m
          ⟨dt, none, none⟩) n) = true := by
        rw [lookup_congr_of_nMap_eq h2map]
        exact hfun
      simp only [visit, visitStmt]
      constructor
      · rw [scopes_visitExpr]
        exact h2map
      · rw [callCount_visitExpr e _ n hF]
        exact hBcnt
  | some (.exprStmt e), st, n, _, hfun, _ => by
    simp only [visit, visitStmt]
    exact ⟨by rw [scopes_visitExpr], callCount_visitExpr e st n hfun⟩
  | some (.print v), st, n, _, hfun, _ => by
    simp only [visit, visitStmt]
    exact ⟨by rw [scopes_visitExpr], callCount_visitExpr v st n hfun⟩
  | some (.ret v), st, n, _, hfun, _ => by
    cases v with
    | none => simp [visit, visitStmt]
    | some e =>
      simp only [visit, visitStmt]
      exact ⟨by rw [scopes_visitExpr], callCount_visitExpr e st n hfun⟩
  | some (.block body), st, n, hne, hfun, hav => by
    have hav2 : listAvoids n body = true := by
      simpa [optAvoids, stmtAvoids] using hav
    simp only [visit, visitStmt]
    exact funPres_visitList body st n hne hfun hav2
  | some (.ifStmt t c a), st, n, hne, hfun, hav => by
    have havs : optAvoids n c = true ∧ optAvoids n a = true := by
      simpa [optAvoids, stmtAvoids, Bool.and_eq_true] using hav
    have h1sc : (visitExpr t st).scopes = st.scopes := scopes_visitExpr t st
    have h1cnt : countMsg (callMsg n) (visitExpr t st).errors = countMsg (callMsg n) st.errors :=
      callCount_visitExpr t st n hfun
    have hEmap : nMap n (enterS (visitExpr t st)).scopes = none :: nMap n st.scopes := by
      rw [enterS_scopes, enter_nMap, h1sc]
    have hEfun : isFunSym (SymbolTable.lookup (enterS (visitExpr t st)).scopes n) = true := by
      rw [enterS_scopes, lookup_enter, h1sc]
      exact hfun
    obtain ⟨hCmap, hCcnt⟩ :=
      funPres_visit c (enterS (visitExpr t st)) n (scopes_enterS_ne _) hEfun havs.1
    have hImap : nMap n (visit c (enterS (visitExpr t st))).scopes = none :: nMap n st.scopes := by
      rw [hCmap, hEmap]
    have h2map : nMap n (exitS (visit c (enterS (visitExpr t st)))).scopes = nMap n st.scopes := by
      rw [exitS_scopes]
      exact exit_nMap hImap hne
    have h2cnt : countMsg (callMsg n) (exitS (visit c (enterS (visitExpr t st)))).errors
        = countMsg (callMsg n) st.errors := by
      rw [exitS_errors, hCcnt, enterS_errors, h1cnt]
    cases a with
    | none =>
      simp only [visit, visitStmt]
      exact ⟨h2map, h2cnt⟩
    | some alt =>
      have h2fun : isFunSym
          (SymbolTable.lookup (exitS (visit c (enterS (visitExpr t st)))).scopes n) = true := by
        rw [lookup_congr_of_nMap_eq h2map]
        exact hfun
      have hE2map : nMap n (enterS (exitS (visit c (enterS (visitExpr t st))))).scopes
          = none :: nMap n st.scopes := by
        rw [enterS_scopes, enter_nMap, h2map]
      have hE2fun : isFunSym
          (SymbolTable.lookup (enterS (exitS (visit c (enterS (visitExpr t st))))).scopes n)
          = true := by
        rw [enterS_scopes, lookup_enter]
        exact h2fun
      obtain ⟨hAmap, hAcnt⟩ := funPres_visit (some alt)
        (enterS (exitS (visit c (enterS (visitExpr t st))))) n (scopes_enterS_ne _) hE2fun havs.2
      have hI2map : nMap n (visit (some alt)
          (enterS (exitS (visit c (enterS (visitExpr t st)))))).scopes
          = none :: nMap n st.scopes := by
        rw [hAmap, hE2map]
      have hfinmap : nMap n (exitS (visit (some alt)
          (enterS (exitS (visit c (enterS (visitExpr t st))))))).scopes = nMap n st.scopes := by
        rw [exitS_scopes]
        exact exit_nMap hI2map hne
      have hfincnt : countMsg (callMsg n) (exitS (visit (some alt)
          (enterS (exitS (visit c (enterS (visitExpr t st))))))).errors
          = countMsg (callMsg n) st.errors := by
        rw [exitS_errors, hAcnt, enterS_errors, h2cnt]
      simp only [visit, visitStmt]
      exact ⟨hfinmap, hfincnt⟩
  | some (.whileStmt t b), st, n, hne, hfun, hav => by
    have hav2 : optAvoids n b = true := by
      simpa [optAvoids, stmtAvoids] using hav
    have h1sc : (visitExpr t st).scopes = st.scopes := scopes_visitExpr t st
    have h1cnt : countMsg (callMsg n) (visitExpr t st).errors = countMsg (callMsg n) st.errors :=
      callCount_visitExpr t st n hfun
    have hEmap : nMap n (enterS (visitExpr t st)).scopes = none :: nMap n st.scopes := by
      rw [enterS_scopes, enter_nMap, h1sc]
    have hEfun : isFunSym (SymbolTable.lookup (enterS (visitExpr t st)).scopes n) = true := by
      rw [enterS_scopes, lookup_enter, h1sc]
      exact hfun
    obtain ⟨hCmap, hCcnt⟩ :=
      funPres_visit b (enterS (visitExpr t st)) n (scopes_enterS_ne _) hEfun hav2
    have hImap : nMap n (visit b (enterS (visitExpr t st))).scopes = none :: nMap n st.scopes := by
      rw [hCmap, hEmap]
    have h2map : nMap n (exitS (visit b (enterS (visitExpr t st)))).scopes = nMap n st.scopes := by
      rw [exitS_scopes]
      exact exit_nMap hImap hne
    have h2cnt : countMsg (callMsg n) (exitS (visit b (enterS (visitExpr t st)))).errors
        = countMsg (callMsg n) st.errors := by
      rw [exitS_errors, hCcnt, enterS_errors, h1cnt]
    simp only [visit, visitStmt]
    exact ⟨h2map, h2cnt⟩

theorem funPres_visitList : ∀ (l : List (Option Stmt)) (st : St) (n : String),
    st.scopes ≠ [] → isFunSym (SymbolTable.lookup st.scopes n) = true → listAvoids n l = true →
    nMap n (visitList l st).scopes = nMap n st.scopes ∧
    countMsg (callMsg n) (visitList l st).errors = countMsg (callMsg n) st.errors
  | [], st, n, _, _, _ => by simp [visitList]
  | s :: rest, st, n, hne, hfun, hav => by
    have havs : optAvoids n s = true ∧ listAvoids n rest = true := by
      simpa [listAvoids, Bool.and_eq_true] using hav
    obtain ⟨h1map, h1cnt⟩ := funPres_visit s st n hne hfun havs.1
    have h1ne : (visit s st).scopes ≠ [] := by
      intro hc
      rw [hc] at h1map
      exact hne ((nMap_eq_nil_iff n st.scopes).mp h1map.symm)
    have h1fun : isFunSym (SymbolTable.lookup (visit s st).scopes n) = true := by
      rw [lookup_congr_of_nMap_eq h1map]
      exact hfun
    obtain ⟨h2map, h2cnt⟩ := funPres_visitList rest (visit s st) n h1ne h1fun havs.2
    simp only [visitList]
    exact ⟨by rw [h2map, h1map], by rw [h2cnt, h1cnt]⟩

end

/-! ### Call-resolution counting: functions and programs -/

theorem scope_lookup_cons_eq (sc : Scope) (n m : String) (i : SymbolInfo)
    (h : (n == m) = true) : List.lookup n ((m, i) :: sc) = some i := by
  simp [List.lookup, h]

theorem paramFold_nMap (ps : List Param) (st : St) (n : String)
    (h : ps.all (fun p => !(p.name == n)) = true) :
    nMap n ((ps.foldl (fun s p =>
      { s with scopes := SymbolTable.add s.scopes p.name ⟨p.dataType, none, none⟩ }) st)).scopes
      = nMap n st.scopes := by
  induction ps generalizing st with
  | nil => rfl
  | cons p rest ih =>
    simp only [List.all_cons, Bool.and_eq_true] at h
    have hp : p.name ≠ n := by simpa using h.1
    have hnp : (n == p.name) = false := by simpa using Ne.symm hp
    simp only [List.foldl_cons]
    rw [ih _ h.2]
    exact add_nMap _ _ hnp

theorem funPres_visitFunc (f : FunctionDef) (st : St) (n : String)
    (hne : st.scopes ≠ []) (hfun : isFunSym (SymbolTable.lookup st.scopes n) = true)
    (hav : funcAvoids n f = true) :
    nMap n (visit_FunctionDef f st).scopes = nMap n st.scopes ∧
    countMsg (callMsg n) (visit_FunctionDef f st).errors = countMsg (callMsg n) st.errors := by
  have havs : f.params.all (fun p => !(p.name == n)) = true ∧ listAvoids n f.body = true := by
    simpa [funcAvoids, Bool.and_eq_true] using hav
  have hEmap : nMap n (enterS st).scopes = none :: nMap n st.scopes := by
    rw [enterS_scopes, enter_nMap]
  have hPmap : nMap n ((f.params.foldl (fun s p =>
      { s with scopes := SymbolTable.add s.scopes p.name ⟨p.dataType, none, none⟩ })
      (enterS st))).scopes = none :: nMap n st.scopes := by
    rw [paramFold_nMap _ _ _ havs.1, hEmap]
  have hPfun : isFunSym (SymbolTable.lookup ((f.params.foldl (fun s p =>
      { s with scopes := SymbolTable.add s.scopes p.name ⟨p.dataType, none, none⟩ })
      (enterS st))).scopes n) = true := by
    have hEq : SymbolTable.lookup ((f.params.foldl (fun s p =>
        { s with scopes := SymbolTable.add s.scopes p.name ⟨p.dataType, none, none⟩ })
        (enterS st))).scopes n = SymbolTable.lookup (enterS st).scopes n :=
      lookup_congr_of_nMap_eq (by rw [paramFold_nMap _ _ _ havs.1])
    rw [hEq, enterS_scopes, lookup_enter]
    exact hfun
  have hPne : ((f.params.foldl (fun s p =>
      { s with scopes := SymbolTable.add s.scopes p.name ⟨p.dataType, none, none⟩ })
      (enterS st))).scopes ≠ [] := by
    intro hc
    rw [hc] at hPmap
    simp [nMap] at hPmap
  obtain ⟨hBmap, hBcnt⟩ := funPres_visitList f.body _ n hPne hPfun havs.2
  have hImap : nMap n (visitList f.body ((f.params.foldl (fun s p =>
      { s with scopes := SymbolTable.add s.scopes p.name ⟨p.dataType, none, none⟩ })
      (enterS st)))).scopes = none :: nMap n st.scopes := by
    rw [hBmap, hPmap]
  constructor
  · simp only [visit_FunctionDef, exitS_scopes]
    exact exit_nMap hImap hne
  · simp only [visit_FunctionDef, exitS_errors]
    rw [hBcnt, paramFold_errors, enterS_errors]

theorem funPres_funcFold : ∀ (fs : List FunctionDef) (st : St) (n : String),
    st.scopes ≠ [] → isFunSym (SymbolTable.lookup st.scopes n) = true →
    (∀ f ∈ fs, funcAvoids n f = true) →
    nMap n ((fs.foldl (fun s f => visit_FunctionDef f s) st)).scopes = nMap n st.scopes ∧
    countMsg (callMsg n) ((fs.foldl (fun s f => visit_FunctionDef f s) st)).errors
      = countMsg (callMsg n) st.errors := by
  intro fs
  induction fs with
  | nil =>
    intro st n _ _ _
    simp
  | cons f rest ih =>
    intro st n hne hfun hav
    obtain ⟨h1map, h1cnt⟩ := funPres_visitFunc f st n hne hfun (hav f (List.mem_cons_self f rest))
    have h1ne : (visit_FunctionDef f st).scopes ≠ [] := by
      intro hc
      rw [hc] at h1map
      exact hne ((nMap_eq_nil_iff n st.scopes).mp h1map.symm)
    have h1fun : isFunSym (SymbolTable.lookup (visit_FunctionDef f st).scopes n) = true := by
      rw [lookup_congr_of_nMap_eq h1map]
      exact hfun
    obtain ⟨h2map, h2cnt⟩ := ih (visit_FunctionDef f st) n h1ne h1fun
      (fun g hg => hav g (List.mem_cons_of_mem f hg))
    simp only [List.foldl_cons]
    exact ⟨by rw [h2map, h1map], by rw [h2cnt, h1cnt]⟩

/-! ### The registration pre-pass -/

theorem lookup_single (sc : Scope) (n : String) :
    SymbolTable.lookup [sc] n = List.lookup n sc := by
  cases h : List.lookup n sc <;> simp [SymbolTable.lookup, h]

theorem registerFuncs_scopes_cons : ∀ (fs : List FunctionDef) (sc : Scope)
    (rest : List Scope) (er : List String),
    (registerFuncs fs ⟨sc :: rest, er⟩).scopes = regFold fs sc :: rest := by
  intro fs
  induction fs with
  | nil =>
    intro sc rest er
    rfl
  | cons f fs2 ih =>
    intro sc rest er
    simp only [registerFuncs, List.foldl_cons] at ih ⊢
    have hstep : ({ (⟨sc :: rest, er⟩ : St) with
        scopes := SymbolTable.add (⟨sc :: rest, er⟩ : St).scopes f.name (funcSymbol f) } : St)
        = (⟨((f.name, funcSymbol f) :: sc) :: rest, er⟩ : St) := by
      simp [SymbolTable.add]
    rw [hstep, ih]
    rfl

theorem isFunSym_funcSymbol (f : FunctionDef) : isFunSym (some (funcSymbol f)) = true := by
  simp [isFunSym, funcSymbol]

theorem regFold_lookup (n : String) : ∀ (fs : List FunctionDef) (sc : Scope),
    ((∃ f ∈ fs, f.name = n) ∨ isFunSym (List.lookup n sc) = true) →
    isFunSym (List.lookup n (regFold fs sc)) = true := by
  intro fs
  induction fs with
  | nil =>
    intro sc h
    rcases h with ⟨f, hf, _⟩ | h
    · simp at hf
    · simpa [regFold] using h
  | cons f rest ih =>
    intro sc h
    have hstep : regFold (f :: rest) sc = regFold rest ((f.name, funcSymbol f) :: sc) := rfl
    rw [hstep]
    apply ih
    by_cases hfn : n = f.name
    · right
      rw [scope_lookup_cons_eq _ _ _ _ (by simpa using hfn)]
      exact isFunSym_funcSymbol f
    · rcases h with ⟨g, hg, hgn⟩ | hsym
      · rcases List.mem_cons.mp hg with hgf | hgr
        · exact absurd (hgf ▸ hgn : f.name = n) (fun he => hfn he.symm)
        · exact Or.inl ⟨g, hgr, hgn⟩
      · right
        have hne2 : (n == f.name) = false := by simpa using hfn
        rw [scope_lookup_cons_ne _ _ _ _ hne2]
        exact hsym

/-! ### VarDecl visiting, in closed form -/

theorem visit_varDecl_scopes (dt n : String) (init : Option Expr) (st : St) :
    (visit (some (.varDecl dt n init)) st).scopes
      = SymbolTable.add st.scopes n ⟨dt, none, none⟩ := by
  cases init with
  | none =>
    simp only [visit, visitStmt]
    rw [varDecl_branch_scopes]
  | some e =>
    simp only [visit, visitStmt]
    rw [scopes_visitExpr, varDecl_branch_scopes]

theorem visit_varDecl_dupCount (dt n : String) (init : Option Expr) (st : St) :
    countMsg (dupMsg n) (visit (some (.varDecl dt n init)) st).errors
      = countMsg (dupMsg n) st.errors + (if currentHas st n then 1 else 0) := by
  have hcnt : ∀ stB : St, countMsg (dupMsg n)
      (({ stB with scopes := SymbolTable.add stB.scopes n ⟨dt, none, none⟩ }) : St).errors
      = countMsg (dupMsg n) stB.errors := fun _ => rfl
  cases init with
  | none =>
    simp only [visit, visitStmt]
    by_cases h : currentHas st n
    · rw [hcnt, if_pos h, pushError_errors, countMsg_append, countMsg_single_eq, if_pos h]
    · rw [hcnt, if_neg h, if_neg h]
      omega
  | some e =>
    simp only [visit, visitStmt]
    rw [dupCount_visitExpr, hcnt]
    by_cases h : currentHas st n
    · rw [if_pos h, pushError_errors, countMsg_append, countMsg_single_eq, if_pos h]
    · rw [if_neg h, if_neg h]
      omega

theorem currentHas_of_add {st2 st : St} {n : String} {i : SymbolInfo}
    (hsc : st2.scopes = SymbolTable.add st.scopes n i) (hne : st.scopes ≠ []) :
    currentHas st2 n = true := by
  match h : st.scopes with
  | [] => exact absurd h hne
  | sc :: rest =>
    rw [h] at hsc
    simp only [SymbolTable.add] at hsc
    simp [currentHas, hsc, List.lookup]

theorem currentHas_enterS (st : St) (n : String) : currentHas (enterS st) n = false := by
  simp [currentHas, enterS, SymbolTable.enter_scope, List.lookup]

/-! ### Functions with empty bodies record nothing -/

theorem visitFunc_empty_body_errors (f : FunctionDef) (hb : f.body = []) (st : St) :
    (visit_FunctionDef f st).errors = st.errors := by
  simp only [visit_FunctionDef, hb, exitS_errors]
  rw [show visitList [] (f.params.foldl (fun s p =>
    { s with scopes := SymbolTable.add s.scopes p.name ⟨p.dataType, none, none⟩ }) (enterS st))
    = (f.params.foldl (fun s p =>
    { s with scopes := SymbolTable.add s.scopes p.name ⟨p.dataType, none, none⟩ }) (enterS st))
    from by simp [visitList]]
  rw [paramFold_errors, enterS_errors]

/-! ### Scope-stack operations never empty the stack -/

theorem exit_ne_nil {scopes : List Scope} (h : scopes ≠ []) :
    SymbolTable.exit_scope scopes ≠ [] := by
  match scopes with
  | [] => exact absurd rfl h
  | [a] => simp [SymbolTable.exit_scope]
  | a :: b :: rest => simp [SymbolTable.exit_scope]

theorem applyOps_ne_nil : ∀ (ops : List ScopeOp) (scopes : List Scope),
    scopes ≠ [] → applyOps ops scopes ≠ [] := by
  intro ops
  induction ops with
  | nil =>
    intro scopes h
    simpa [applyOps] using h
  | cons op rest ih =>
    intro scopes h
    have hstep : applyOps (op :: rest) scopes = applyOps rest
        (match op with
         | ScopeOp.enter => SymbolTable.enter_scope scopes
         | ScopeOp.exit => SymbolTable.exit_scope scopes) := by
      simp [applyOps]
    rw [hstep]
    cases op with
    | enter => exact ih _ (by simp [SymbolTable.enter_scope])
    | exit => exact ih _ (exit_ne_nil h)

/-! ### The claims -/

/-- C1: the claim states that every statement appearing in a FunctionDef,
Block, If or While body — VarDecl, Assignment, Return, Print, and also a
Call or other expression used as an expression statement — is rendered as
complete newline-terminated lines indented to its nesting depth, so that
the generated text is syntactically valid Python.  The code violates this
for expression statements: the Call branch of `generate` (line 391)
ignores the indent and appends no newline, and the guarded branch
`elif ntype == 'Call' and indent > 0` (line 398) that would have produced
the indented newline-terminated form is unreachable behind it.  On the
semantically valid program `int f(){ return 0; } int main(){ f(); return 0; }`
the generated text contains the line `f()    return 0`, which is not valid
Python.  This theorem evaluates the embedded code at that failing input:
zero semantic errors, yet the call statement renders as the bare text
`f()` with no indent and no newline, and the whole program renders with
the two statements of main glued onto one unindented line. -/
theorem c1_call_statement_rendering :
    analyzeErrors callProg = [] ∧
    genStmt (.exprStmt (.call "f" [])) 1 = some "f()" ∧
    genProgram callProg = some
      "# Transpiled Python Code\nimport sys\n\ndef f():\n    return 0\n\ndef main():\nf()    return 0\n\nmain()\n" := by
  exact ⟨by decide, by decide, by decide⟩

/-- C2, counterexample: the claim states that declaring the same name
twice in the same mapping — including two top-level FunctionDefs with the
same name — records a duplicate-declaration SemanticError.  On the
program `int f(){ return 0; } int f(){ return 1; }` the analyzer records
no error at all: the pre-pass registers signatures with `add`, which
overwrites without any duplicate check, and `visit_FunctionDef` performs
none either. -/
theorem c2_counterexample : analyzeErrors dupFnProg = [] := by decide

/-- C2, amended: re-declaring a VARIABLE whose name the current mapping
already binds records a duplicate-declaration SemanticError; but two
top-level FunctionDefs with the same name record no error — the second
signature silently overwrites the first in the global scope, because only
`visit_VarDecl` performs a duplicate check. -/
theorem c2_amended_duplicate_rules :
    (∀ (st : St) (dt n : String), currentHas st n = true →
      (visit (some (.varDecl dt n none)) st).errors = st.errors ++ [dupMsg n])
    ∧ (∀ (rt1 rt2 n : String) (ps1 ps2 : List Param),
      analyzeErrors ⟨[⟨rt1, n, ps1, []⟩, ⟨rt2, n, ps2, []⟩]⟩ = []) := by
  constructor
  · intro st dt n h
    simp only [visit, visitStmt]
    rw [if_pos h]
    rfl
  · intro rt1 rt2 n ps1 ps2
    simp only [analyzeErrors, visit_Program, List.foldl_cons, List.foldl_nil]
    rw [visitFunc_empty_body_errors _ rfl, visitFunc_empty_body_errors _ rfl,
      registerFuncs_errors]
    rfl

/-- Witness for C2: at a state whose current mapping binds `x`, visiting
a VarDecl of `x` appends exactly the duplicate-declaration message. -/
theorem c2_witness :
    currentHas ⟨[[("x", ⟨"int", none, none⟩)]], []⟩ "x" = true ∧
    (visit (some (.varDecl "int" "x" none)) ⟨[[("x", ⟨"int", none, none⟩)]], []⟩).errors
      = (⟨[[("x", ⟨"int", none, none⟩)]], []⟩ : St).errors ++ [dupMsg "x"] :=
  ⟨by decide,
    c2_amended_duplicate_rules.1 ⟨[[("x", ⟨"int", none, none⟩)]], []⟩ "int" "x" (by decide)⟩

/-- C3: `visit_Program` folds the function bodies over the state the
registration pre-pass produces, so every top-level FunctionDef signature
is in the global scope before any body is visited: after `registerFuncs`
every declared function name looks up to a function symbol (first
conjunct).  Consequently a Call to a declared function name — in
particular to one defined later in the program body — records no
undeclared/non-function error, provided no parameter or local VarDecl
shadows that name anywhere in the program (second conjunct). -/
theorem c3_forward_registration_and_calls :
    (∀ (p : Program) (n : String), (∃ f ∈ p.body, f.name = n) →
      isFunSym (SymbolTable.lookup (registerFuncs p.body initState).scopes n) = true)
    ∧ (∀ (p : Program) (n : String), (∃ f ∈ p.body, f.name = n) →
      (∀ f ∈ p.body, funcAvoids n f = true) →
      callMsg n ∉ analyzeErrors p) := by
  have hreg : ∀ (p : Program) (n : String), (∃ f ∈ p.body, f.name = n) →
      isFunSym (SymbolTable.lookup (registerFuncs p.body initState).scopes n) = true := by
    intro p n hex
    have hsc : (registerFuncs p.body initState).scopes = [regFold p.body []] :=
      registerFuncs_scopes_cons p.body [] [] []
    rw [hsc, lookup_single]
    exact regFold_lookup n p.body [] (Or.inl hex)
  refine ⟨hreg, ?_⟩
  intro p n hex hav
  have hsc : (registerFuncs p.body initState).scopes = [regFold p.body []] :=
    registerFuncs_scopes_cons p.body [] [] []
  have hne : (registerFuncs p.body initState).scopes ≠ [] := by
    rw [hsc]
    simp
  obtain ⟨-, hcnt⟩ := funPres_funcFold p.body (registerFuncs p.body initState) n hne
    (hreg p n hex) hav
  rw [← countMsg_zero_iff]
  simp only [analyzeErrors, visit_Program]
  rw [hcnt, registerFuncs_errors]
  rfl

/-- Witness for C3: in `fwdProg` the body of `main` calls `helper`, which
is defined later in the program body; no non-function/undeclared error
about `helper` is recorded. -/
theorem c3_witness :
    (∃ f ∈ fwdProg.body, f.name = "helper") ∧ callMsg "helper" ∉ analyzeErrors fwdProg :=
  ⟨by decide, c3_forward_registration_and_calls.2 fwdProg "helper" (by decide) (by decide)⟩

/-- C4: two VarDecls of the same name visited in sequence in the same
scope record exactly one duplicate-declaration error, counted by the
number of occurrences of the duplicate message, and the second
declaration is still registered (the current mapping afterwards binds the
name to the dataType of the second declaration); a VarDecl visited in a
freshly entered child scope records zero duplicate errors even when an
ancestor scope binds the same name (shadowing). -/
theorem c4_duplicate_and_shadowing :
    (∀ (st : St) (dt1 dt2 n : String) (i1 i2 : Option Expr),
      st.scopes ≠ [] → currentHas st n = false →
      countMsg (dupMsg n)
        (visitList [some (.varDecl dt1 n i1), some (.varDecl dt2 n i2)] st).errors
        = countMsg (dupMsg n) st.errors + 1
      ∧ ∃ sc rest, (visitList [some (.varDecl dt1 n i1), some (.varDecl dt2 n i2)] st).scopes
          = sc :: rest ∧ List.lookup n sc = some ⟨dt2, none, none⟩)
    ∧ (∀ (st : St) (dt n : String) (i : Option Expr),
      (SymbolTable.lookup st.scopes n).isSome = true →
      countMsg (dupMsg n) (visit (some (.varDecl dt n i)) (enterS st)).errors
        = countMsg (dupMsg n) st.errors) := by
  constructor
  · intro st dt1 dt2 n i1 i2 hne hcur
    have hL : visitList [some (.varDecl dt1 n i1), some (.varDecl dt2 n i2)] st
        = visit (some (.varDecl dt2 n i2)) (visit (some (.varDecl dt1 n i1)) st) := by
      simp [visitList]
    have hA_sc := visit_varDecl_scopes dt1 n i1 st
    have hcur2 : currentHas (visit (some (.varDecl dt1 n i1)) st) n = true :=
      currentHas_of_add hA_sc hne
    constructor
    · rw [hL, visit_varDecl_dupCount dt2 n i2, visit_varDecl_dupCount dt1 n i1]
      rw [if_pos hcur2, if_neg (by simp [hcur])]
    · match hsc : st.scopes with
      | [] => exact absurd hsc hne
      | sc0 :: rest0 =>
        refine ⟨(n, ⟨dt2, none, none⟩) :: (n, ⟨dt1, none, none⟩) :: sc0, rest0, ?_, ?_⟩
        · rw [hL, visit_varDecl_scopes, visit_varDecl_scopes, hsc]
          rfl
        · exact scope_lookup_cons_eq _ _ _ _ (by simp)
  · intro st dt n i _hanc
    rw [visit_varDecl_dupCount, currentHas_enterS]
    simp [enterS_errors]

/-- Witness for C4: from the initial state, two `int x` declarations in
sequence yield exactly one duplicate message. -/
theorem c4_witness :
    (initState.scopes ≠ [] ∧ currentHas initState "x" = false) ∧
    countMsg (dupMsg "x") (visitList [some (.varDecl "int" "x" none),
      some (.varDecl "int" "x" none)] initState).errors
      = countMsg (dupMsg "x") initState.errors + 1 :=
  ⟨⟨by decide, by decide⟩,
    (c4_duplicate_and_shadowing.1 initState "int" "int" "x" none none
      (by decide) (by decide)).1⟩

/-- C5: on the AST of `int main(){ if(1){ int y=10; } y=20; return 0; }`
semantic analysis records exactly one SemanticError, the assignment to
`y` after the if construct closes — the If case pushes a fresh scope
around the consequent and pops it, so `y` is invisible afterwards. -/
theorem c5_scenario_c :
    analyzeErrors scenarioC = [assignMsg "y"] ∧ (analyzeErrors scenarioC).length = 1 := by
  have h : analyzeErrors scenarioC = [assignMsg "y"] := by decide
  exact ⟨h, by rw [h]; rfl⟩

/-- C6, counterexample: the claim states the placeholder is emitted
whenever the rendered body contains no statements.  The body `[None]`
(the parse of `int f(){ ; }`) renders no statements — its rendering is
the empty string — yet the generator emits no placeholder, because the
guard `if not node['body']` only tests list emptiness: the function
renders as a bare header with an empty block. -/
theorem c6_counterexample :
    genStmtList [(none : Option Stmt)] 1 = some "" ∧ genFunc fNull 0 = some "def f():\n" :=
  ⟨by decide, by decide⟩

/-- C6, amended: the no-op placeholder is emitted exactly when the body
STATEMENT LIST is empty; for an empty body list the function renders as
the header followed by one indented `pass` line.  (A non-empty list whose
entries all render as empty text — such as a lone null statement — still
produces an empty block.) -/
theorem c6_amended_empty_body_placeholder :
    ∀ (rt n : String) (ps : List Param) (ind : Nat),
    genFunc ⟨rt, n, ps, []⟩ ind = some (indStr ind ++ "def " ++ n ++ "(" ++
      String.intercalate ", " (ps.map (fun p => p.name)) ++ "):\n"
      ++ indStr ind ++ "    pass\n") := by
  intro rt n ps ind
  simp [genFunc, String.append_assoc]

/-- C7: the analyzer accumulates: visiting any statement leaves the
previously recorded errors as a prefix and appends exactly the findings
of that visit (so traversal never stops at the first error, and every
finding surfaces), the scopes it produces are independent of the errors
recorded so far, and `analyze` reports success exactly when the
accumulated list is empty. -/
theorem c7_accumulate_and_report :
    (∀ (s : Option Stmt) (st : St),
      visit s st = ⟨(visit s ⟨st.scopes, []⟩).scopes,
        st.errors ++ (visit s ⟨st.scopes, []⟩).errors⟩)
    ∧ (∀ p : Program, analyze p = true ↔ analyzeErrors p = []) := by
  constructor
  · intro s st
    exact errAcc_visit s st
  · intro p
    simp [analyze, List.isEmpty_iff]

/-- C8: `exit_scope` pops the current (head) mapping exactly when more
than one mapping exists, leaves a one-element stack unchanged, and hence
any sequence of enter/exit operations starting from a non-empty stack —
in particular from the initial single global scope — never empties it. -/
theorem c8_scope_stack_safety :
    (∀ (ops : List ScopeOp) (scopes : List Scope), scopes ≠ [] → applyOps ops scopes ≠ [])
    ∧ (∀ (a b : Scope) (rest : List Scope), SymbolTable.exit_scope (a :: b :: rest) = b :: rest)
    ∧ (∀ a : Scope, SymbolTable.exit_scope [a] = [a]) :=
  ⟨applyOps_ne_nil, fun _ _ _ => rfl, fun _ => rfl⟩

/-- Witness for C8: enter once then exit twice from the initial stack;
the stack stays non-empty. -/
theorem c8_witness :
    ([[]] : List Scope) ≠ [] ∧
    applyOps [ScopeOp.enter, ScopeOp.exit, ScopeOp.exit] [[]] ≠ [] :=
  ⟨by decide, c8_scope_stack_safety.1 [ScopeOp.enter, ScopeOp.exit, ScopeOp.exit] [[]] (by decide)⟩

/-- C9: on a non-empty scope stack, visiting any statement leaves the
stack at the same depth (every enter_scope in the If, While and
FunctionDef cases is matched by exactly one exit_scope); the same holds
for a whole FunctionDef, and a full analysis run ends with the single
global scope again. -/
theorem c9_scope_depth_preservation :
    (∀ (s : Option Stmt) (st : St), st.scopes ≠ [] →
      (visit s st).scopes.length = st.scopes.length)
    ∧ (∀ (f : FunctionDef) (st : St), st.scopes ≠ [] →
      (visit_FunctionDef f st).scopes.length = st.scopes.length)
    ∧ (∀ p : Program, (visit_Program p initState).scopes.length = 1) :=
  ⟨depth_visit, depth_visitFunc, visit_Program_scopes_length⟩

/-- Witness for C9: visiting a statement from the initial state keeps the
stack at depth one. -/
theorem c9_witness :
    initState.scopes ≠ [] ∧
    (visit (some (.ret none)) initState).scopes.length = initState.scopes.length :=
  ⟨by decide, c9_scope_depth_preservation.1 (some (.ret none)) initState (by decide)⟩

/-- C10: the analyzer is total on parser-produced trees containing null
statements: visiting the null node returns the state unchanged (no fault,
no error recorded), and a null entry of a statement list contributes
nothing to the traversal of the list. -/
theorem c10_null_statement_safety :
    (∀ st : St, visit none st = st)
    ∧ (∀ (rest : List (Option Stmt)) (st : St), visitList (none :: rest) st = visitList rest st) := by
  constructor
  · intro st
    simp [visit, visitStmt]
  · intro rest st
    have h : visit none st = st := by simp [visit, visitStmt]
    simp only [visitList]
    rw [h]

end Sp3
